import Mathlib

/-
  Verification of the itch-scraper repository (src/scraper.py, src/app.py).

  Shallow embedding conventions:
  * A fetched, parsed HTML page is modelled as a record of the values the
    CSS selectors used by the source would return: `none` when the selector
    misses, `some v` when it hits.  A BeautifulSoup attribute access
    `tag["content"]` on a tag that lacks the attribute raises KeyError, so a
    meta tag is modelled as `Option (Option String)`: the outer layer is tag
    presence, the inner layer is presence of its `content` attribute, while
    `tag.get(name, default)` accesses are total.
  * Network and filesystem effects are an explicit world: page fetches
    return `Except` (raise_for_status), download/mkdir/write outcomes are
    oracle functions, and the side effects actually performed (downloads,
    metadata.json writes, index.json write, progress-callback invocations)
    are collected as an ordered event list.
  * Python string helpers (re.sub whitespace collapse, str.split, str.rsplit,
    str.replace, str.strip, int()) are translated to structural recursion on
    `List Char` so that every definition evaluates by kernel reduction.
  * The unbounded pagination `while True` loop takes explicit fuel and
    returns `none` when the fuel runs out.
-/

namespace Itch

/-- Characters stripped by Python str.strip() and matched by the regex
class backslash-s used in `_clean` (ASCII fragment). -/
def pySpace (c : Char) : Bool :=
  c = ' ' || c = '\t' || c = '\n' || c = '\r' || c.toNat = 11 || c.toNat = 12

/-- Collapse every maximal run of whitespace to a single space, the effect of
re.sub over the pattern of one-or-more whitespace characters in `_clean`. -/
def collapseWS : List Char → List Char
  | [] => []
  | c :: rest =>
    let r := collapseWS rest
    if pySpace c then
      match r with
      | ' ' :: _ => r
      | _ => ' ' :: r
    else c :: r

/-- Drop characters satisfying `p` from both ends (Python str.strip). -/
def stripEnds (p : Char → Bool) (l : List Char) : List Char :=
  ((l.dropWhile p).reverse.dropWhile p).reverse

/-- scraper.py `_clean` applied to an actual string: collapse whitespace runs
to single spaces, then strip. -/
def _clean (s : String) : String :=
  String.mk (stripEnds pySpace (collapseWS s.data))

/-- scraper.py `_clean` applied to a value that may be None (or a falsy tag):
the `if not text` guard returns the empty string. -/
def _cleanOpt : Option String → String
  | none => ""
  | some s => _clean s

/-- Python str.split with a single-character separator: `l.split(sep)`. -/
def splitOnChar (sep : Char) : List Char → List (List Char)
  | [] => [[]]
  | c :: rest =>
    let r := splitOnChar sep rest
    if c = sep then [] :: r
    else (c :: r.headD []) :: r.tail

/-- Join pieces with a separator character; inverse of `splitOnChar`. -/
def joinChar (sep : Char) : List (List Char) → List Char
  | [] => []
  | [x] => x
  | x :: y :: rest => x ++ sep :: joinChar sep (y :: rest)

/-- Python str.rstrip(c): drop every trailing occurrence of `c`. -/
def rstripChar (ch : Char) (l : List Char) : List Char :=
  (l.reverse.dropWhile (fun c => c = ch)).reverse

/-- Fuel-driven worker for Python str.replace(pat, "") - left-to-right,
non-overlapping removal of every occurrence of `pat`.  The fuel is set to the
length of the subject, which always suffices. -/
def replaceAllF (pat : List Char) : Nat → List Char → List Char
  | _, [] => []
  | 0, l => l
  | fuel + 1, c :: rest =>
    if pat ≠ [] ∧ pat.isPrefixOf (c :: rest) then
      replaceAllF pat fuel ((c :: rest).drop pat.length)
    else c :: replaceAllF pat fuel rest

/-- Python `s.replace(pat, "")`. -/
def replaceAll (pat l : List Char) : List Char :=
  replaceAllF pat l.length l

/-- Digit-run parser for Python int(): digits with single underscores allowed
only between digits. -/
def pyDigitsGo (acc : Nat) : List Char → Option Nat
  | [] => some acc
  | '_' :: c :: rest =>
    if c.isDigit then pyDigitsGo (acc * 10 + (c.toNat - 48)) rest else none
  | ['_'] => none
  | c :: rest =>
    if c.isDigit then pyDigitsGo (acc * 10 + (c.toNat - 48)) rest else none

/-- Nonempty digit sequence for Python int(). -/
def pyDigits : List Char → Option Nat
  | [] => none
  | c :: rest => if c.isDigit then pyDigitsGo (c.toNat - 48) rest else none

/-- Python int(str): strips whitespace, allows one sign, then digits with
underscore separators; raises ValueError otherwise. -/
def pyInt (l : List Char) : Except String Int :=
  let t := stripEnds pySpace l
  let core : Option Int :=
    match t with
    | '+' :: rest => (pyDigits rest).map Int.ofNat
    | '-' :: rest => (pyDigits rest).map (fun n => -(Int.ofNat n))
    | _ => (pyDigits t).map Int.ofNat
  match core with
  | some n => .ok n
  | none => .error "invalid literal for int() with base 10"

/-- Truthiness of a Python value that is either None or a string. -/
def pyTruthyOpt : Option String → Bool
  | none => false
  | some s => s ≠ ""

/-- Python `a or b` for two strings (used for `title or slug`). -/
def pyOr (a b : String) : String :=
  if a = "" then b else a

/-- Python `a or b` where `a` may be None and the result may be None
(used for `img.get("src") or img.get("data-lazy_src")`). -/
def pyOrOpt (a b : Option String) : Option String :=
  match a with
  | some s => if s ≠ "" then a else b
  | none => b

/- ── scraper.py helpers ──────────────────────────────────────────── -/

/-- `url.split("?")[0]` in `_ext_from_url`: the URL up to the query string. -/
def queryStripped (url : String) : List Char :=
  (splitOnChar '?' url.data).headD []

/-- `path.split("/")[-1]` in `_ext_from_url`: final path segment of the
query-stripped URL. -/
def finalSeg (url : String) : List Char :=
  (splitOnChar '/' (queryStripped url)).getLastD []

/-- scraper.py `_ext_from_url`: extension of the final path segment after
stripping the query string, defaulting to ".jpg" when the segment has no
dot.  The branch taken mirrors `"." in path.split("/")[-1]`, and the
extension mirrors `"." + seg.rsplit(".", 1)[-1]`. -/
def _ext_from_url (url : String) : String :=
  if (finalSeg url).contains '.' then
    String.mk ('.' :: (splitOnChar '.' (finalSeg url)).getLastD [])
  else ".jpg"

/-- `url.rsplit("/", 1)[-1]`: everything after the last slash (title
fallback, line 101). -/
def lastSeg (url : String) : String :=
  String.mk ((splitOnChar '/' url.data).getLastD [])

/-- `url.rstrip("/").rsplit("/", 1)[-1]`: the project slug (line 103). -/
def slugOf (url : String) : String :=
  String.mk ((splitOnChar '/' (rstripChar '/' url.data)).getLastD [])

/- ── Listing pages and pagination ────────────────────────────────── -/

/-- One creator listing page, as seen through the selectors of
`fetch_project_urls`: the href attributes of the primary project-link
anchors, those of the fallback thumb-link anchors, and whether an
`a.next_page` element is present. -/
structure ListingPage where
  primary : List (Option String)
  thumb : List (Option String)
  has_next : Bool
deriving Repr, DecidableEq

/-- The body of the anchor loop in `fetch_project_urls` (lines 68-73):
append each truthy, not-yet-seen href and count how many were newly added. -/
def processCells (urls : List String) : List (Option String) → List String × Nat
  | [] => (urls, 0)
  | none :: rest => processCells urls rest
  | some href :: rest =>
    if href ≠ "" ∧ href ∉ urls then
      let r := processCells (urls ++ [href]) rest
      (r.1, r.2 + 1)
    else processCells urls rest

/-- One project page, as seen through the selectors used by
`scrape_project`.  Meta tags subscripted with ["content"] are
`Option (Option String)` (tag presence, then attribute presence); text
selections are the extracted raw text; attribute reads done with .get are
plain options. -/
structure ProjectPage where
  game_title : Option String
  og_title : Option (Option String)
  formatted_description : Option String
  og_description : Option (Option String)
  tag_texts : List String
  info_rows : List (List String)
  buy_price : Option String
  icon_class_lists : List (List String)
  ratingValue : Option (Option String)
  ratingCount : Option (Option String)
  og_image : Option (Option String)
  header_img : Option (Option String × Option String)
  screenshot_a_hrefs : List (Option String)
  screenshot_imgs : List (Option String × Option String)
deriving Repr

/-- The whole outside world one creator scrape interacts with: listing pages
by page number, project pages by URL (both through `_fetch`, so an `Except`),
and the success outcome of each `_download_file` call by URL and
destination. -/
structure World where
  listing : Nat → Except String ListingPage
  fetchPage : String → Except String ProjectPage
  downloadOk : String → String → Bool

/-- The `while True` pagination loop of `fetch_project_urls` (lines 58-78),
with explicit fuel.  `none` means the fuel ran out; `some (.error e)` means a
listing fetch raised; `some (.ok urls)` is normal loop exit. -/
def fetchLoop (w : World) (urls : List String) (page fuel : Nat) :
    Option (Except String (List String)) :=
  match fuel with
  | 0 => none
  | fuel + 1 =>
    match w.listing page with
    | .error e => some (.error e)
    | .ok p =>
      let cells := if p.primary = [] then p.thumb else p.primary
      let r := processCells urls cells
      if p.has_next = true ∧ r.2 ≠ 0 then fetchLoop w r.1 (page + 1) fuel
      else some (.ok r.1)

/-- scraper.py `fetch_project_urls`: start with no URLs on page 1. -/
def fetch_project_urls (w : World) (fuel : Nat) :
    Option (Except String (List String)) :=
  fetchLoop w [] 1 fuel

/- ── Project page extraction ─────────────────────────────────────── -/

/-- BeautifulSoup `tag["content"]`: KeyError when the attribute is absent. -/
def getAttr (attrs : Option String) : Except String String :=
  match attrs with
  | some v => .ok v
  | none => .error "KeyError: \x27content\x27"

/-- Title resolution, lines 97-101: cleaned h1.game_title text; when that is
empty, the og:title meta content if the tag exists (raw, possibly empty,
KeyError if it has no content attribute), else the last URL path segment. -/
def titleOf (p : ProjectPage) (url : String) : Except String String :=
  let t := _cleanOpt p.game_title
  if t = "" then
    match p.og_title with
    | some attrs => getAttr attrs
    | none => .ok (lastSeg url)
  else .ok t

/-- Rating extraction, lines 146-149: None when the meta tag is absent,
otherwise its content attribute (KeyError if missing). -/
def ratingOf : Option (Option String) → Except String (Option String)
  | none => .ok none
  | some attrs => (getAttr attrs).map some

/-- `cover_el.get("src") or cover_el.get("data-lazy_src", "")` (line 164). -/
def headerCoverVal (hi : Option String × Option String) : String :=
  match hi.1 with
  | some s => if s ≠ "" then s else hi.2.getD ""
  | none => hi.2.getD ""

/-- Cover URL resolution, lines 157-164: og:image content first; when that
is falsy, the header/cover img src or lazy attribute. -/
def coverUrlOf (p : ProjectPage) : Except String (Option String) :=
  let step1 : Except String (Option String) :=
    match p.og_image with
    | some attrs => (getAttr attrs).map some
    | none => .ok none
  match step1 with
  | .error e => .error e
  | .ok c1 =>
    .ok (if pyTruthyOpt c1 then c1
         else match p.header_img with
              | some hi => some (headerCoverVal hi)
              | none => c1)

/-- Screenshot URL enumeration, lines 174-183: anchor hrefs in the gallery;
when none, gallery img src-or-lazy attributes. -/
def screenshotUrlsOf (p : ProjectPage) : List String :=
  let fromA := p.screenshot_a_hrefs.filterMap (fun h =>
    match h with
    | some s => if s ≠ "" then some s else none
    | none => none)
  if fromA ≠ [] then fromA
  else p.screenshot_imgs.filterMap (fun si =>
    match pyOrOpt si.1 si.2 with
    | some s => if s ≠ "" then some s else none
    | none => none)

/-- Python dict assignment `info[key] = val`: overwrite in place or append. -/
def dictInsert (d : List (String × String)) (k v : String) :
    List (String × String) :=
  if d.any (fun kv => kv.1 = k) then
    d.map (fun kv => if kv.1 = k then (k, v) else kv)
  else d ++ [(k, v)]

/-- Info-panel table extraction, lines 123-131: rows with exactly two cells
contribute cleaned key (with trailing colons stripped) and value, skipping
empty keys. -/
def buildInfo (rows : List (List String)) : List (String × String) :=
  rows.foldl (fun acc row =>
    match row with
    | [k, v] =>
      let key := String.mk (rstripChar ':' (_clean k).data)
      if key ≠ "" then dictInsert acc key (_clean v) else acc
    | _ => acc) []

/-- The pattern stripped from platform icon classes. -/
def iconDash : List Char := "icon-".data

/-- Platform extraction, lines 138-143: classes of icon spans starting with
"icon-", with every occurrence of "icon-" removed. -/
def platformsOf (cls : List (List String)) : List String :=
  cls.foldl (fun acc l =>
    acc ++ l.filterMap (fun c =>
      if iconDash.isPrefixOf c.data then
        some (String.mk (replaceAll iconDash c.data))
      else none)) []

/-- The metadata dict persisted as metadata.json (lines 197-211). -/
structure Rec where
  url : String
  title : String
  slug : String
  short_description : String
  description : String
  tags : List String
  info : List (String × String)
  price : String
  platforms : List String
  rating : Option String
  rating_count : Option String
  cover_image : Option String
  screenshots : List String
deriving Repr, DecidableEq

/-- A record with every field at its base value (used as a getD default). -/
def defaultRec : Rec :=
  { url := "", title := "", slug := "", short_description := "",
    description := "", tags := [], info := [], price := "", platforms := [],
    rating := none, rating_count := none, cover_image := none,
    screenshots := [] }

/-- Observable side effects of a creator scrape, in program order.  Download
destinations and recorded asset paths are project-directory-relative
("images/..."), as in the persisted record. -/
inductive Event where
  | download (url : String) (dest : String) (ok : Bool)
  | writeMetadata (slug : String) (meta : Rec)
  | progress (msg : String)
  | writeIndex (creator : String) (count : Nat) (projects : List Rec)
deriving Repr, DecidableEq

/-- The pure extraction part of `scrape_project` (lines 95-190): builds the
record and the ordered download task list (cover first, then screenshots)
from a fetched page.  The fallible steps, in source order, are the title
(og:title KeyError), ratingValue, ratingCount, and og:image content reads. -/
def extractProject (p : ProjectPage) (url : String) :
    Except String (Rec × List (String × String)) :=
  match titleOf p url with
  | .error e => .error e
  | .ok title =>
    let slug := slugOf url
    let description :=
      match p.formatted_description with
      | some t => _clean t
      | none => ""
    let short_text :=
      match p.og_description with
      | some attrs => _clean (attrs.getD "")
      | none => ""
    let tags := p.tag_texts.map _clean
    let info := buildInfo p.info_rows
    let price :=
      match p.buy_price with
      | some t => _clean t
      | none => "Free"
    let platforms := platformsOf p.icon_class_lists
    match ratingOf p.ratingValue with
    | .error e => .error e
    | .ok rating =>
      match ratingOf p.ratingCount with
      | .error e => .error e
      | .ok rating_count =>
        match coverUrlOf p with
        | .error e => .error e
        | .ok cover_url =>
          let coverPart : Option String × List (String × String) :=
            match cover_url with
            | some cu =>
              if cu ≠ "" then
                (some ("images/cover" ++ _ext_from_url cu),
                 [(cu, "images/cover" ++ _ext_from_url cu)])
              else (none, [])
            | none => (none, [])
          let shots := (screenshotUrlsOf p).enum.map (fun iu =>
            (iu.2, "images/screenshot_" ++ toString iu.1 ++ _ext_from_url iu.2))
          .ok ({ url := url, title := title, slug := slug,
                 short_description := short_text, description := description,
                 tags := tags, info := info, price := price,
                 platforms := platforms, rating := rating,
                 rating_count := rating_count, cover_image := coverPart.1,
                 screenshots := shots.map (fun t => t.2) },
               coverPart.2 ++ shots)

/-- scraper.py `scrape_project`: fetch the page, extract, attempt every
download (results ignored), write metadata.json, and invoke the progress
callback with `title or slug`.  A fetch or extraction error aborts with no
events; downloads precede the metadata write, which precedes the progress
call, mirroring lines 92-218. -/
def scrape_project (w : World) (url : String) :
    Except String (Rec × List Event) :=
  match w.fetchPage url with
  | .error e => .error e
  | .ok p =>
    match extractProject p url with
    | .error e => .error e
    | .ok mt =>
      let m := mt.1
      let dls := mt.2.map (fun t => Event.download t.1 t.2 (w.downloadOk t.1 t.2))
      .ok (m, dls ++ [Event.writeMetadata m.slug m,
                      Event.progress (pyOr m.title m.slug)])

/-- The sequential per-project loop of `scrape_creator` (lines 241-244):
events accumulate across projects; the first failing project aborts with the
events already produced. -/
def creatorLoop (w : World) : List String → List Event × Except String (List Rec)
  | [] => ([], .ok [])
  | u :: rest =>
    match scrape_project w u with
    | .error e => ([], .error e)
    | .ok me =>
      let r := creatorLoop w rest
      (me.2 ++ r.1, r.2.map (fun results => me.1 :: results))

/-- scraper.py `scrape_creator`: discover URLs (fuel-bounded pagination),
fail fast when none, emit the total marker, process projects sequentially,
and on full success write index.json with creator, project_count and the
records in discovery order (lines 225-255). -/
def scrape_creator (w : World) (creator : String) (fuel : Nat) :
    Option (List Event × Except String (List Rec)) :=
  match fetch_project_urls w fuel with
  | none => none
  | some (.error e) => some ([], .error e)
  | some (.ok project_urls) =>
    if project_urls = [] then
      some ([], .error ("No public projects found for \x27" ++ creator ++ "\x27"))
    else
      let r := creatorLoop w project_urls
      match r.2 with
      | .error e =>
        some (Event.progress ("__total__" ++ toString project_urls.length) :: r.1,
              .error e)
      | .ok results =>
        some (Event.progress ("__total__" ++ toString project_urls.length) :: r.1
                ++ [Event.writeIndex creator results.length results],
              .ok results)

/- ── `_download_file` ─────────────────────────────────────────────── -/

/-- Filesystem effects of `_download_file`. -/
inductive FsEvent where
  | mkdir (dir : String)
  | write (path : String) (content : List Nat)
deriving Repr, DecidableEq

/-- The world `_download_file` interacts with: the GET outcome (content
bytes or a raised error, non-2xx included), and whether the mkdir and
write_bytes calls succeed. -/
structure DLWorld where
  get : String → Except String (List Nat)
  mkdirOk : String → Bool
  writeOk : String → Bool

/-- `dest.parent`: the path with its last component removed. -/
def parentOf (p : String) : String :=
  String.mk (joinChar '/' (splitOnChar '/' p.data).dropLast)

/-- scraper.py `_download_file` (lines 25-34): GET the URL, create parent
directories, write the full content; any raised step is swallowed and
reported as `false`.  Returns the flag and the filesystem effects that
actually happened before any failure. -/
def _download_file (w : DLWorld) (url dest : String) : Bool × List FsEvent :=
  match w.get url with
  | .error _ => (false, [])
  | .ok content =>
    if w.mkdirOk (parentOf dest) then
      if w.writeOk dest then
        (true, [FsEvent.mkdir (parentOf dest), FsEvent.write dest content])
      else (false, [FsEvent.mkdir (parentOf dest)])
    else (false, [])

/- ── app.py job state and progress callback ──────────────────────── -/

/-- The total-count marker prefix used by the progress protocol. -/
def totalMarker : List Char := "__total__".data

/-- One entry of the app.py `jobs` registry (line 41). -/
structure Job where
  status : String
  total : Int
  error : Option String
  zipPath : Option String
  progress : List String
deriving Repr, DecidableEq

/-- app.py `on_progress` (lines 74-78): a message starting with the marker
sets `total` to int(msg.replace("__total__", "")) - int() may raise -
while any other message is appended to `progress`. -/
def on_progress (job : Job) (msg : String) : Except String Job :=
  if totalMarker.isPrefixOf msg.data then
    match pyInt (replaceAll totalMarker msg.data) with
    | .ok n => .ok { job with total := n }
    | .error e => .error e
  else .ok { job with progress := job.progress ++ [msg] }

/-- Progress-callback invocations contained in an event trace, in order. -/
def progressMsgs (evts : List Event) : List String :=
  evts.filterMap (fun e =>
    match e with
    | .progress m => some m
    | _ => none)

/- ── Concrete pages and worlds used to exercise the theorems ─────── -/

/-- Whether a meta-tag selection, when it hits, carries a content attribute
(so that the ["content"] subscript cannot raise). -/
def attrOk : Option (Option String) → Bool
  | some none => false
  | _ => true

/-- A project page on which every selector misses. -/
def emptyPage : ProjectPage :=
  { game_title := none, og_title := none, formatted_description := none,
    og_description := none, tag_texts := [], info_rows := [], buy_price := none,
    icon_class_lists := [], ratingValue := none, ratingCount := none,
    og_image := none, header_img := none, screenshot_a_hrefs := [],
    screenshot_imgs := [] }

/-- A page whose h1.game_title has text "Hello". -/
def pH : ProjectPage := { emptyPage with game_title := some "Hello" }

/-- A page with a ratingValue meta tag that has no content attribute. -/
def pC2 : ProjectPage := { emptyPage with ratingValue := some none }

/-- A page with no heading and an og:title meta tag whose content is empty. -/
def pC3 : ProjectPage := { emptyPage with og_title := some (some "") }

/-- A page whose only asset is an og:image cover URL. -/
def pC1 : ProjectPage :=
  { emptyPage with og_image := some (some "https://img.z/c.png") }

/-- A listing oracle that always raises (unused by project-level runs). -/
def LX : Nat → Except String ListingPage := fun _ => .error "x"

/-- A page oracle always returning `pC1`. -/
def FC1 : String → Except String ProjectPage := fun _ => .ok pC1

/-- Download oracle on which every download fails. -/
def dFalse : String → String → Bool := fun _ _ => false

/-- Download oracle on which every download succeeds. -/
def dTrue : String → String → Bool := fun _ _ => true

def urlC1 : String := "https://a.itch.io/g"

/-- The record `scrape_project` produces from `pC1` at `urlC1`. -/
def mC1 : Rec :=
  { url := urlC1, title := "g", slug := "g", short_description := "",
    description := "", tags := [], info := [], price := "Free",
    platforms := [], rating := none, rating_count := none,
    cover_image := some "images/cover.png", screenshots := [] }

/-- The events of that run when every download fails. -/
def evtsC1 : List Event :=
  [Event.download "https://img.z/c.png" "images/cover.png" false,
   Event.writeMetadata "g" mC1, Event.progress "g"]

/-- A one-project world whose single page is `emptyPage`. -/
def wOk : World :=
  { listing := fun _ => .ok { primary := [some "u1"], thumb := [], has_next := false },
    fetchPage := fun u => if u = "u1" then .ok emptyPage else .error "boom",
    downloadOk := dTrue }

/-- A two-project world whose second project page fetch raises "boom". -/
def wBoom : World :=
  { listing := fun _ => .ok { primary := [some "u1", some "u2"], thumb := [], has_next := false },
    fetchPage := fun u => if u = "u1" then .ok emptyPage else .error "boom",
    downloadOk := dTrue }

/-- A world whose listing pages contain no project links at all. -/
def wEmpty : World :=
  { listing := fun _ => .ok { primary := [], thumb := [], has_next := true },
    fetchPage := fun _ => .error "x", downloadOk := dTrue }

/-- The record scraped from `emptyPage` at URL "u1". -/
def recU1 : Rec :=
  { url := "u1", title := "u1", slug := "u1", short_description := "",
    description := "", tags := [], info := [], price := "Free",
    platforms := [], rating := none, rating_count := none,
    cover_image := none, screenshots := [] }

/-- Events of the successful `wOk` creator run. -/
def evtsOk : List Event :=
  [Event.progress "__total__1", Event.writeMetadata "u1" recU1,
   Event.progress "u1", Event.writeIndex "alice" 1 [recU1]]

/-- Events of the aborted `wBoom` creator run. -/
def evtsBoom : List Event :=
  [Event.progress "__total__2", Event.writeMetadata "u1" recU1,
   Event.progress "u1"]

def pag1 : ListingPage := { primary := [some "a", some "b"], thumb := [], has_next := true }

def pag2 : ListingPage := { primary := [some "b", some "c"], thumb := [], has_next := true }

def pag3 : ListingPage := { primary := [], thumb := [some "c"], has_next := true }

/-- A three-page pagination world: page 2 repeats a link, page 3 (thumb
fallback) yields nothing new, so pagination stops there. -/
def wPag : World :=
  { listing := fun n => if n = 1 then .ok pag1 else if n = 2 then .ok pag2 else .ok pag3,
    fetchPage := fun _ => .error "x", downloadOk := dTrue }

/-- A download world where every operation succeeds. -/
def wDL : DLWorld :=
  { get := fun _ => .ok [1, 2, 3], mkdirOk := fun _ => true,
    writeOk := fun _ => true }

/-- A freshly created job-registry entry (app.py line 41). -/
def job0 : Job :=
  { status := "running", total := 0, error := none, zipPath := none,
    progress := [] }

/- ════════════════════════ Lemmas ════════════════════════ -/

lemma splitOnChar_ne_nil (sep : Char) (l : List Char) : splitOnChar sep l ≠ [] := by
  cases l with
  | nil => simp [splitOnChar]
  | cons c rest =>
    simp only [splitOnChar]
    split <;> simp

lemma joinChar_splitOnChar (sep : Char) (l : List Char) :
    joinChar sep (splitOnChar sep l) = l := by
  induction l with
  | nil => rfl
  | cons c rest ih =>
    obtain ⟨r0, rs, hr⟩ := List.exists_cons_of_ne_nil (splitOnChar_ne_nil sep rest)
    simp only [splitOnChar]
    by_cases hc : c = sep
    · subst hc
      simp only [if_pos rfl, hr]
      rw [hr] at ih
      simpa [joinChar] using ih
    · simp only [if_neg hc, hr]
      rw [hr] at ih
      cases rs with
      | nil => simpa [joinChar] using ih
      | cons s ss => simpa [joinChar] using ih

lemma sep_not_mem_splitOnChar (sep : Char) (l : List Char) :
    ∀ part ∈ splitOnChar sep l, sep ∉ part := by
  induction l with
  | nil =>
    intro part hp
    simp [splitOnChar] at hp
    simp [hp]
  | cons c rest ih =>
    intro part hp
    obtain ⟨r0, rs, hr⟩ := List.exists_cons_of_ne_nil (splitOnChar_ne_nil sep rest)
    simp only [splitOnChar, hr] at hp
    by_cases hc : c = sep
    · rw [if_pos hc] at hp
      rcases List.mem_cons.mp hp with h | h
      · simp [h]
      · exact ih part (hr ▸ h)
    · rw [if_neg hc] at hp
      rcases List.mem_cons.mp hp with h | h
      · subst h
        intro hmem
        rcases List.mem_cons.mp hmem with h | h
        · exact hc h.symm
        · exact ih r0 (hr ▸ List.mem_cons_self r0 rs) h
      · exact ih part (hr ▸ List.mem_cons_of_mem r0 h)

lemma list_eq_dropLast_append_getLastD {α : Type} (d : α) :
    ∀ (L : List α), L ≠ [] → L = L.dropLast ++ [L.getLastD d]
  | [a], _ => rfl
  | a :: b :: t, _ => by
    have ih := list_eq_dropLast_append_getLastD d (b :: t) (by simp)
    calc a :: b :: t = a :: ((b :: t).dropLast ++ [(b :: t).getLastD d]) := by
          rw [← ih]
      _ = (a :: b :: t).dropLast ++ [(a :: b :: t).getLastD d] := by
          simp [List.dropLast, List.getLastD]

lemma joinChar_append_single (sep : Char) :
    ∀ (xs : List (List Char)) (e : List Char), xs ≠ [] →
      joinChar sep (xs ++ [e]) = joinChar sep xs ++ sep :: e
  | [x], e, _ => rfl
  | x :: y :: t, e, _ => by
    have ih := joinChar_append_single sep (y :: t) e (by simp)
    rw [List.cons_append] at ih
    simp only [List.cons_append, joinChar, List.append_eq]
    rw [ih]
    simp [joinChar, List.append_assoc]

lemma scrape_project_shape (w : World) (url : String) (m : Rec) (evts : List Event)
    (h : scrape_project w url = .ok (m, evts)) :
    ∃ tasks : List (String × String),
      evts = tasks.map (fun t => Event.download t.1 t.2 (w.downloadOk t.1 t.2))
        ++ [Event.writeMetadata m.slug m, Event.progress (pyOr m.title m.slug)] := by
  unfold scrape_project at h
  cases hf : w.fetchPage url with
  | error e =>
    rw [hf] at h
    exact Except.noConfusion h
  | ok p =>
    rw [hf] at h
    dsimp only at h
    cases he : extractProject p url with
    | error e =>
      rw [he] at h
      exact Except.noConfusion h
    | ok mt =>
      rw [he] at h
      dsimp only at h
      injection h with h1
      injection h1 with hm hevts
      subst hm
      exact ⟨mt.2, hevts.symm⟩

lemma progressMsgs_append (a b : List Event) :
    progressMsgs (a ++ b) = progressMsgs a ++ progressMsgs b := by
  simp [progressMsgs]

lemma progressMsgs_downloads (ts : List (String × String)) (f : String → String → Bool) :
    progressMsgs (ts.map (fun t => Event.download t.1 t.2 (f t.1 t.2))) = [] := by
  induction ts with
  | nil => rfl
  | cons t rest ih => simp [progressMsgs, List.filterMap_cons, ih]

lemma scrape_project_progress (w : World) (url : String) (m : Rec) (evts : List Event)
    (h : scrape_project w url = .ok (m, evts)) :
    progressMsgs evts = [pyOr m.title m.slug] := by
  obtain ⟨tasks, htasks⟩ := scrape_project_shape w url m evts h
  rw [htasks, progressMsgs_append, progressMsgs_downloads]
  rfl

lemma scrape_project_no_writeIndex (w : World) (url : String) (m : Rec)
    (evts : List Event) (h : scrape_project w url = .ok (m, evts)) :
    ∀ cr n ps, Event.writeIndex cr n ps ∉ evts := by
  obtain ⟨tasks, htasks⟩ := scrape_project_shape w url m evts h
  intro cr n ps hmem
  rw [htasks] at hmem
  rcases List.mem_append.mp hmem with hmem | hmem
  · obtain ⟨t, _, ht⟩ := List.mem_map.mp hmem
    exact Event.noConfusion ht
  · rcases List.mem_cons.mp hmem with ht | hmem
    · exact Event.noConfusion ht
    · rcases List.mem_cons.mp hmem with ht | hmem
      · exact Event.noConfusion ht
      · exact (List.not_mem_nil _ hmem)

lemma scrape_project_writes_metadata (w : World) (url : String) (m : Rec)
    (evts : List Event) (h : scrape_project w url = .ok (m, evts)) :
    Event.writeMetadata m.slug m ∈ evts := by
  obtain ⟨tasks, htasks⟩ := scrape_project_shape w url m evts h
  rw [htasks]
  exact List.mem_append_right _ (List.mem_cons_self _ _)

/- ════════════════════════ Claim theorems ════════════════════════ -/

/-- C8: the extension chosen by `_ext_from_url` is the extension of the
URL's final path segment after stripping query parameters: when the segment
contains no dot the result is ".jpg", and otherwise the segment splits as
`stem ++ "." ++ e` with a dot-free `e` and the result is `"." ++ e`. -/
theorem ext_from_url_spec (url : String) :
    ((finalSeg url).contains '.' = false → _ext_from_url url = ".jpg")
    ∧ ((finalSeg url).contains '.' = true →
        ∃ stem e, finalSeg url = stem ++ '.' :: e ∧ '.' ∉ e
          ∧ _ext_from_url url = String.mk ('.' :: e)) := by
  constructor
  · intro h
    unfold _ext_from_url
    rw [h]
    simp
  · intro h
    have hmem_dot : '.' ∈ finalSeg url := by simpa using h
    obtain ⟨parts, hp⟩ : ∃ parts, splitOnChar '.' (finalSeg url) = parts := ⟨_, rfl⟩
    have hne : parts ≠ [] := hp ▸ splitOnChar_ne_nil '.' (finalSeg url)
    obtain ⟨init, e, hpe⟩ : ∃ init e, parts = init ++ [e] :=
      ⟨parts.dropLast, parts.getLastD [], list_eq_dropLast_append_getLastD [] parts hne⟩
    have hjoin : joinChar '.' parts = finalSeg url := by
      rw [← hp]
      exact joinChar_splitOnChar '.' (finalSeg url)
    have he_mem : e ∈ splitOnChar '.' (finalSeg url) := by
      rw [hp, hpe]
      exact List.mem_append_right _ (by simp)
    have hnotdot : '.' ∉ e := sep_not_mem_splitOnChar '.' (finalSeg url) e he_mem
    have hinit : init ≠ [] := by
      intro h0
      rw [h0, List.nil_append] at hpe
      have hfs : finalSeg url = e := by
        rw [← hjoin, hpe]
        rfl
      exact hnotdot (hfs ▸ hmem_dot)
    refine ⟨joinChar '.' init, e, ?_, hnotdot, ?_⟩
    · rw [← hjoin, hpe]
      exact joinChar_append_single '.' init e hinit
    · unfold _ext_from_url
      rw [h]
      simp only [if_pos rfl]
      rw [hp, hpe]
      simp [List.getLastD_concat]

/-- C8 witness: a cover URL ending in /download gets extension .jpg, and a
screenshot URL with a query string keeps .png. -/
theorem ext_from_url_spec_witness :
    _ext_from_url "https://img.itch.zone/aW1n/download" = ".jpg"
    ∧ ∃ stem e, finalSeg "https://a.io/b/shot.png?w=300" = stem ++ '.' :: e
        ∧ '.' ∉ e ∧ _ext_from_url "https://a.io/b/shot.png?w=300" = String.mk ('.' :: e) :=
  ⟨(ext_from_url_spec "https://img.itch.zone/aW1n/download").1 (by decide),
   (ext_from_url_spec "https://a.io/b/shot.png?w=300").2 (by decide)⟩

/-- C7: `_download_file` is a total function of the outcome oracles (no
exception escapes it); it returns true exactly when the GET succeeded and
both the parent-directory creation and the content write succeeded, and in
that case the filesystem effects are the parent mkdir followed by a write of
the full fetched content to the destination. -/
theorem download_file_spec (w : DLWorld) (url dest : String) :
    ((_download_file w url dest).1 = true ↔
      ∃ c, w.get url = .ok c ∧ w.mkdirOk (parentOf dest) = true
        ∧ w.writeOk dest = true)
    ∧ (∀ c, w.get url = .ok c → (_download_file w url dest).1 = true →
        (_download_file w url dest).2
          = [FsEvent.mkdir (parentOf dest), FsEvent.write dest c]) := by
  constructor
  · cases hg : w.get url with
    | error e => simp [_download_file, hg]
    | ok c =>
      by_cases hm : w.mkdirOk (parentOf dest) = true
      · by_cases hw : w.writeOk dest = true
        · simp [_download_file, hg, hm, hw]
        · simp [_download_file, hg, hm, hw]
      · simp [_download_file, hg, hm]
  · intro c hg htrue
    by_cases hm : w.mkdirOk (parentOf dest) = true
    · by_cases hw : w.writeOk dest = true
      · simp [_download_file, hg, hm, hw]
      · simp [_download_file, hg, hm, hw] at htrue
    · simp [_download_file, hg, hm] at htrue

/-- C7 witness: on a world where everything succeeds, the flag is true and
the effects are the mkdir of images plus the write of the content. -/
theorem download_file_spec_witness :
    (_download_file wDL "https://img.z/c.png" "g/images/cover.png").2
      = [FsEvent.mkdir (parentOf "g/images/cover.png"),
         FsEvent.write "g/images/cover.png" [1, 2, 3]] :=
  (download_file_spec wDL "https://img.z/c.png" "g/images/cover.png").2
    [1, 2, 3] rfl rfl

/-- C3 counterexample: the claim "title is never empty whenever any fallback
source is non-empty" is false: on a page with no heading and an og:title
meta tag whose content is the empty string, the title is the empty string
even though the URL's last path segment is non-empty. -/
theorem title_nonempty_refuted :
    ¬ (∀ (p : ProjectPage) (url t : String),
        titleOf p url = .ok t →
        (_cleanOpt p.game_title ≠ ""
          ∨ (∃ c, p.og_title = some (some c) ∧ c ≠ "")
          ∨ lastSeg url ≠ "") →
        t ≠ "") := by
  intro h
  exact h pC3 "https://a.itch.io/mygame" "" rfl
    (Or.inr (Or.inr (by decide))) rfl

/-- C3 amended: the title follows the chain cleaned h1.game_title text, then
the og:title meta tag selected by presence (its raw content, which may be
empty and whose absence as an attribute raises), then the last URL path
segment; the result is non-empty when the cleaned heading text is non-empty,
or the heading yields nothing and the og:title tag is present with non-empty
content, or the heading yields nothing, the og:title tag is absent, and the
last URL path segment is non-empty. -/
theorem title_fallback_chain (p : ProjectPage) (url : String) :
    (_cleanOpt p.game_title ≠ "" → titleOf p url = .ok (_cleanOpt p.game_title))
    ∧ (_cleanOpt p.game_title = "" → p.og_title = none →
        titleOf p url = .ok (lastSeg url))
    ∧ (∀ c, _cleanOpt p.game_title = "" → p.og_title = some (some c) →
        titleOf p url = .ok c)
    ∧ ((_cleanOpt p.game_title ≠ ""
        ∨ (_cleanOpt p.game_title = "" ∧ ∃ c, p.og_title = some (some c) ∧ c ≠ "")
        ∨ (_cleanOpt p.game_title = "" ∧ p.og_title = none ∧ lastSeg url ≠ "")) →
       ∃ t, titleOf p url = .ok t ∧ t ≠ "") := by
  refine ⟨?_, ?_, ?_, ?_⟩
  · intro h
    simp [titleOf, h]
  · intro h hog
    simp [titleOf, h, hog]
  · intro c h hog
    simp [titleOf, h, hog, getAttr]
  · rintro (h | ⟨h, c, hog, hc⟩ | ⟨h, hog, hseg⟩)
    · exact ⟨_cleanOpt p.game_title, by simp [titleOf, h], h⟩
    · exact ⟨c, by simp [titleOf, h, hog, getAttr], hc⟩
    · exact ⟨lastSeg url, by simp [titleOf, h, hog], hseg⟩

/-- C3 witness: a page with heading text "Hello" titles as "Hello"; an
all-missing page at a URL with last segment "mygame" gets a non-empty
title. -/
theorem title_fallback_chain_witness :
    titleOf pH "u" = .ok (_cleanOpt pH.game_title)
    ∧ ∃ t, titleOf emptyPage "https://a.itch.io/mygame" = .ok t ∧ t ≠ "" :=
  ⟨(title_fallback_chain pH "u").1 (by decide),
   (title_fallback_chain emptyPage "https://a.itch.io/mygame").2.2.2
     (Or.inr (Or.inr ⟨rfl, rfl, by decide⟩))⟩

/-- C2 counterexample: field extraction can raise: on a page whose
ratingValue meta tag has no content attribute, the ["content"] subscript
raises KeyError, so extraction does not return a record for every page. -/
theorem extraction_total_refuted :
    ¬ (∀ (p : ProjectPage) (url : String), ∃ rt, extractProject p url = .ok rt) := by
  intro h
  obtain ⟨rt, hrt⟩ := h pC2 "u"
  rw [show extractProject pC2 "u" = Except.error "KeyError: \x27content\x27" from rfl] at hrt
  exact Except.noConfusion hrt

/-- C2 amended: extraction never raises provided every meta tag it
subscripts (og:title, ratingValue, ratingCount, og:image) carries its
content attribute when present; every other field falls back to its safe
default, and in particular a page with no rating meta tags yields a record
with rating and rating_count both none. -/
theorem extraction_safe_defaults (p : ProjectPage) (url : String)
    (h1 : attrOk p.og_title = true) (h2 : attrOk p.ratingValue = true)
    (h3 : attrOk p.ratingCount = true) (h4 : attrOk p.og_image = true) :
    ∃ rt, extractProject p url = .ok rt
      ∧ (p.ratingValue = none → rt.1.rating = none)
      ∧ (p.ratingCount = none → rt.1.rating_count = none) := by
  have ht : ∃ t, titleOf p url = .ok t := by
    unfold titleOf
    by_cases h : _cleanOpt p.game_title = ""
    · rw [if_pos h]
      cases hog : p.og_title with
      | none => exact ⟨lastSeg url, rfl⟩
      | some attrs =>
        cases attrs with
        | none => rw [hog] at h1; simp [attrOk] at h1
        | some c => exact ⟨c, rfl⟩
    · rw [if_neg h]
      exact ⟨_cleanOpt p.game_title, rfl⟩
  have hrv : ∃ r, ratingOf p.ratingValue = .ok r ∧ (p.ratingValue = none → r = none) := by
    cases hv : p.ratingValue with
    | none => exact ⟨none, rfl, fun _ => rfl⟩
    | some attrs =>
      cases attrs with
      | none => rw [hv] at h2; simp [attrOk] at h2
      | some c => exact ⟨some c, rfl, by simp⟩
  have hrc : ∃ r, ratingOf p.ratingCount = .ok r ∧ (p.ratingCount = none → r = none) := by
    cases hv : p.ratingCount with
    | none => exact ⟨none, rfl, fun _ => rfl⟩
    | some attrs =>
      cases attrs with
      | none => rw [hv] at h3; simp [attrOk] at h3
      | some c => exact ⟨some c, rfl, by simp⟩
  have hcv : ∃ c, coverUrlOf p = .ok c := by
    unfold coverUrlOf
    cases hv : p.og_image with
    | none => exact ⟨_, rfl⟩
    | some attrs =>
      cases attrs with
      | none => rw [hv] at h4; simp [attrOk] at h4
      | some c => exact ⟨_, rfl⟩
  obtain ⟨t, ht⟩ := ht
  obtain ⟨rv, hrv, hrvn⟩ := hrv
  obtain ⟨rc, hrc, hrcn⟩ := hrc
  obtain ⟨cv, hcv⟩ := hcv
  cases hE : extractProject p url with
  | error e =>
    exfalso
    unfold extractProject at hE
    rw [ht, hrv, hrc, hcv] at hE
    exact Except.noConfusion hE
  | ok rt =>
    unfold extractProject at hE
    rw [ht, hrv, hrc, hcv] at hE
    injection hE with hE2
    refine ⟨rt, rfl, fun hn => ?_, fun hn => ?_⟩
    · rw [← hE2]
      exact hrvn hn
    · rw [← hE2]
      exact hrcn hn

/-- C2 witness: a page on which every selector misses extracts successfully
with rating and rating_count both none. -/
theorem extraction_safe_defaults_witness :
    ∃ rt, extractProject emptyPage "u" = .ok rt
      ∧ (emptyPage.ratingValue = none → rt.1.rating = none)
      ∧ (emptyPage.ratingCount = none → rt.1.rating_count = none) :=
  extraction_safe_defaults emptyPage "u" rfl rfl rfl rfl

/-- C1 counterexample: a failed cover download does not make the persisted
record omit the cover path: there is a run in which the cover download event
carries ok = false yet cover_image is recorded. -/
theorem asset_failure_omits_path_refuted :
    ¬ (∀ (w : World) (url u ext : String) (m : Rec) (evts : List Event),
        scrape_project w url = .ok (m, evts) →
        Event.download u ("images/cover" ++ ext) false ∈ evts →
        m.cover_image = none) := by
  intro h
  have hmem : Event.download "https://img.z/c.png" ("images/cover" ++ ".png") false
      ∈ evtsC1 := by decide
  have := h (World.mk LX FC1 dFalse) urlC1 "https://img.z/c.png" ".png" mC1 evtsC1
    rfl hmem
  exact absurd this (by decide)

/-- C1 amended: an individual download failure is non-fatal and silently
tolerated, but the recorded asset paths are not omitted: the persisted
record is entirely independent of the download outcomes (cover_image and
screenshots are fixed by URL enumeration alone), every enumerated download
is attempted regardless of other failures, and the metadata persistence and
progress event follow all download attempts unconditionally. -/
theorem scrape_project_download_resilience
    (L : Nat → Except String ListingPage) (F : String → Except String ProjectPage)
    (d₁ d₂ : String → String → Bool) (url : String) :
    Except.map Prod.fst (scrape_project (World.mk L F d₁) url)
      = Except.map Prod.fst (scrape_project (World.mk L F d₂) url)
    ∧ (∀ m evts, scrape_project (World.mk L F d₁) url = .ok (m, evts) →
        ∃ tasks : List (String × String),
          evts = tasks.map (fun t => Event.download t.1 t.2 (d₁ t.1 t.2))
            ++ [Event.writeMetadata m.slug m, Event.progress (pyOr m.title m.slug)]) := by
  constructor
  · unfold scrape_project
    dsimp only
    cases hf : F url with
    | error e => rfl
    | ok p =>
      dsimp only
      cases he : extractProject p url with
      | error e => rfl
      | ok mt => rfl
  · intro m evts h
    exact scrape_project_shape (World.mk L F d₁) url m evts h

/-- C1 witness: on the concrete world where every download fails, the events
still consist of all download attempts followed by the metadata write and
the progress message. -/
theorem scrape_project_download_resilience_witness :
    ∃ tasks : List (String × String),
      evtsC1 = tasks.map (fun t => Event.download t.1 t.2 (dFalse t.1 t.2))
        ++ [Event.writeMetadata mC1.slug mC1, Event.progress (pyOr mC1.title mC1.slug)] :=
  (scrape_project_download_resilience LX FC1 dFalse dTrue urlC1).2 mC1 evtsC1 rfl

lemma processCells_spec : ∀ (cells : List (Option String)) (urls : List String),
    ∃ fresh, processCells urls cells = (urls ++ fresh, fresh.length)
      ∧ fresh.Nodup ∧ ∀ u ∈ fresh, u ∉ urls ∧ u ≠ "" := by
  intro cells
  induction cells with
  | nil =>
    intro urls
    exact ⟨[], by simp [processCells], List.nodup_nil, by simp⟩
  | cons hd rest ih =>
    intro urls
    cases hd with
    | none =>
      obtain ⟨fresh, heq, hnd, hmem⟩ := ih urls
      exact ⟨fresh, by simp [processCells, heq], hnd, hmem⟩
    | some href =>
      by_cases hc : href ≠ "" ∧ href ∉ urls
      · obtain ⟨fresh, heq, hnd, hmem⟩ := ih (urls ++ [href])
        refine ⟨href :: fresh, ?_, ?_, ?_⟩
        · simp only [processCells, if_pos hc, heq]
          rw [List.append_assoc]
          rfl
        · refine List.Nodup.cons ?_ hnd
          intro hin
          exact (hmem href hin).1 (List.mem_append_right urls (by simp))
        · intro u hu
          rcases List.mem_cons.mp hu with h | h
          · subst h
            exact ⟨hc.2, hc.1⟩
          · refine ⟨fun hin => (hmem u h).1 (List.mem_append_left _ hin), (hmem u h).2⟩
      · obtain ⟨fresh, heq, hnd, hmem⟩ := ih urls
        exact ⟨fresh, by simp only [processCells, if_neg hc]; exact heq, hnd, hmem⟩

lemma fetchLoop_nodup : ∀ (fuel : Nat) (w : World) (urls : List String) (page : Nat)
    (res : List String), urls.Nodup → fetchLoop w urls page fuel = some (.ok res) →
    res.Nodup ∧ ∃ ext, res = urls ++ ext := by
  intro fuel
  induction fuel with
  | zero =>
    intro w urls page res _ h
    exact Option.noConfusion h
  | succ f ih =>
    intro w urls page res hnd h
    unfold fetchLoop at h
    cases hl : w.listing page with
    | error e =>
      rw [hl] at h
      injection h with h1
      exact Except.noConfusion h1
    | ok p =>
      rw [hl] at h
      dsimp only at h
      obtain ⟨fresh, heq, hfnd, hfmem⟩ :=
        processCells_spec (if p.primary = [] then p.thumb else p.primary) urls
      rw [heq] at h
      have hnd' : (urls ++ fresh).Nodup :=
        List.Nodup.append hnd hfnd (fun a ha hb => (hfmem a hb).1 ha)
      by_cases hcond : p.has_next = true ∧ fresh.length ≠ 0
      · rw [if_pos hcond] at h
        obtain ⟨hres, ext, hext⟩ := ih w (urls ++ fresh) (page + 1) res hnd' h
        exact ⟨hres, fresh ++ ext, by rw [hext, List.append_assoc]⟩
      · rw [if_neg hcond] at h
        injection h with h1
        injection h1 with h2
        exact ⟨h2 ▸ hnd', fresh, h2.symm⟩

/-- C4: pagination discovery: (1) a page's anchor pass appends exactly the
newly-seen non-empty hrefs, in order, and counts only those (an
already-collected URL is neither re-added nor counted); (2) after a
successfully fetched page the loop fetches a further page exactly when that
page contributed at least one new URL and a next-page link is present,
starting from page 1 and incrementing; (3) the returned list holds each URL
exactly once. -/
theorem pagination_spec :
    (∀ (urls : List String) (cells : List (Option String)),
      ∃ fresh, processCells urls cells = (urls ++ fresh, fresh.length)
        ∧ fresh.Nodup ∧ ∀ u ∈ fresh, u ∉ urls ∧ u ≠ "")
    ∧ (∀ (w : World) (urls : List String) (page fuel : Nat) (p : ListingPage),
        w.listing page = .ok p →
        fetchLoop w urls page (fuel + 1) =
          (let cells := if p.primary = [] then p.thumb else p.primary
           let r := processCells urls cells
           if p.has_next = true ∧ r.2 ≠ 0 then fetchLoop w r.1 (page + 1) fuel
           else some (.ok r.1)))
    ∧ (∀ (w : World) (fuel : Nat) (res : List String),
        fetch_project_urls w fuel = some (.ok res) → res.Nodup) := by
  refine ⟨fun urls cells => processCells_spec cells urls, ?_, ?_⟩
  · intro w urls page fuel p hl
    conv_lhs => unfold fetchLoop
    rw [hl]
  · intro w fuel res h
    exact (fetchLoop_nodup fuel w [] 1 res List.nodup_nil h).1

/-- C4 witness: on the three-page world the loop continues from page 1 to
page 2 (new URLs and a next link), and the final result has no
duplicates even though page 2 repeats a URL of page 1. -/
theorem pagination_spec_witness :
    (["a", "b", "c"] : List String).Nodup
    ∧ fetchLoop wPag [] 1 4 = fetchLoop wPag ["a", "b"] 2 3 :=
  ⟨pagination_spec.2.2 wPag 10 ["a", "b", "c"] rfl,
   (pagination_spec.2.1 wPag [] 1 3 pag1 rfl).trans rfl⟩

lemma creatorLoop_ok (w : World) : ∀ (urls : List String) (evts : List Event)
    (results : List Rec), creatorLoop w urls = (evts, .ok results) →
    results.length = urls.length
    ∧ (∀ cr n ps, Event.writeIndex cr n ps ∉ evts)
    ∧ progressMsgs evts = results.map (fun r => pyOr r.title r.slug)
    ∧ ∀ i, i < urls.length →
        ∃ ev, scrape_project w (urls.getD i "") = .ok (results.getD i defaultRec, ev) := by
  intro urls
  induction urls with
  | nil =>
    intro evts results h
    unfold creatorLoop at h
    injection h with h1 h2
    injection h2 with h2
    subst h1
    subst h2
    refine ⟨rfl, by simp, rfl, ?_⟩
    intro i hi
    exact absurd hi (by simp)
  | cons u rest ih =>
    intro evts results h
    unfold creatorLoop at h
    cases hs : scrape_project w u with
    | error e =>
      rw [hs] at h
      injection h with h1 h2
      exact Except.noConfusion h2
    | ok me =>
      rw [hs] at h
      dsimp only at h
      cases hr : (creatorLoop w rest).2 with
      | error e =>
        rw [hr] at h
        injection h with h1 h2
        exact Except.noConfusion h2
      | ok tl =>
        rw [hr] at h
        injection h with h1 h2
        injection h2 with h2
        dsimp only at h2
        have hrest : creatorLoop w rest = ((creatorLoop w rest).1, .ok tl) := by
          rw [← hr]
        obtain ⟨ihlen, ihwi, ihpm, ihidx⟩ := ih (creatorLoop w rest).1 tl hrest
        subst h1
        subst h2
        refine ⟨by simp [ihlen], ?_, ?_, ?_⟩
        · intro cr n ps hmem
          rcases List.mem_append.mp hmem with hmem | hmem
          · exact scrape_project_no_writeIndex w u me.1 me.2 hs cr n ps hmem
          · exact ihwi cr n ps hmem
        · rw [progressMsgs_append,
            scrape_project_progress w u me.1 me.2 hs, ihpm]
          rfl
        · intro i hi
          cases i with
          | zero =>
            exact ⟨me.2, hs⟩
          | succ j =>
            simp only [List.getD_cons_succ]
            exact ihidx j (by simpa using hi)

lemma creatorLoop_err (w : World) : ∀ (urls : List String) (evts : List Event)
    (e : String), creatorLoop w urls = (evts, .error e) →
    (∀ cr n ps, Event.writeIndex cr n ps ∉ evts)
    ∧ ∃ k, k < urls.length ∧ scrape_project w (urls.getD k "") = .error e
        ∧ ∀ i, i < k → ∃ m ev, scrape_project w (urls.getD i "") = .ok (m, ev)
            ∧ Event.writeMetadata m.slug m ∈ evts := by
  intro urls
  induction urls with
  | nil =>
    intro evts e h
    unfold creatorLoop at h
    injection h with h1 h2
    exact Except.noConfusion h2
  | cons u rest ih =>
    intro evts e h
    unfold creatorLoop at h
    cases hs : scrape_project w u with
    | error e0 =>
      rw [hs] at h
      injection h with h1 h2
      injection h2 with h2
      subst h1
      subst h2
      refine ⟨by simp, 0, by simp, hs, ?_⟩
      intro i hi
      exact absurd hi (Nat.not_lt_zero i)
    | ok me =>
      rw [hs] at h
      dsimp only at h
      cases hr : (creatorLoop w rest).2 with
      | ok tl =>
        rw [hr] at h
        injection h with h1 h2
        exact Except.noConfusion h2
      | error e0 =>
        rw [hr] at h
        injection h with h1 h2
        injection h2 with h2
        have hrest : creatorLoop w rest = ((creatorLoop w rest).1, .error e0) := by
          rw [← hr]
        obtain ⟨ihwi, k, hk, herr, hprev⟩ := ih (creatorLoop w rest).1 e0 hrest
        subst h1
        subst h2
        refine ⟨?_, k + 1, by simpa using hk, herr, ?_⟩
        · intro cr n ps hmem
          rcases List.mem_append.mp hmem with hmem | hmem
          · exact scrape_project_no_writeIndex w u me.1 me.2 hs cr n ps hmem
          · exact ihwi cr n ps hmem
        · intro i hi
          cases i with
          | zero =>
            refine ⟨me.1, me.2, hs, ?_⟩
            exact List.mem_append_left _
              (scrape_project_writes_metadata w u me.1 me.2 hs)
          | succ j =>
            obtain ⟨m, ev, hok, hmemw⟩ := hprev j (by omega)
            exact ⟨m, ev, by simpa using hok, List.mem_append_right _ hmemw⟩

/-- C5: fatal cases of a creator run: an empty discovered URL list raises
the "No public projects found" error with no events at all; and whenever
the run ends in an error, no index.json write event exists, while for a
failure at project k every earlier project's metadata.json write is still
among the events. -/
theorem creator_fatal_cases (w : World) (c : String) (fuel : Nat) :
    (fetch_project_urls w fuel = some (.ok []) →
      scrape_creator w c fuel
        = some ([], .error ("No public projects found for \x27" ++ c ++ "\x27")))
    ∧ (∀ evts e, scrape_creator w c fuel = some (evts, .error e) →
        (∀ cr n ps, Event.writeIndex cr n ps ∉ evts)
        ∧ ∀ urls, urls ≠ [] → fetch_project_urls w fuel = some (.ok urls) →
            ∃ k, k < urls.length ∧ scrape_project w (urls.getD k "") = .error e
              ∧ ∀ i, i < k → ∃ m ev, scrape_project w (urls.getD i "") = .ok (m, ev)
                  ∧ Event.writeMetadata m.slug m ∈ evts) := by
  constructor
  · intro hf
    unfold scrape_creator
    rw [hf]
    rfl
  · intro evts e h
    unfold scrape_creator at h
    cases hf : fetch_project_urls w fuel with
    | none =>
      rw [hf] at h
      exact Option.noConfusion h
    | some r =>
      rw [hf] at h
      cases r with
      | error e0 =>
        dsimp only at h
        injection h with h1
        injection h1 with h1 h2
        subst h1
        refine ⟨by simp, ?_⟩
        intro urls hne hu
        injection hu with hu
        exact Except.noConfusion hu
      | ok urls0 =>
        dsimp only at h
        by_cases hz : urls0 = []
        · rw [if_pos hz] at h
          injection h with h1
          injection h1 with h1 h2
          subst h1
          refine ⟨by simp, ?_⟩
          intro urls hne hu
          injection hu with hu
          injection hu with hu
          exact absurd (hu.symm.trans hz) hne
        · rw [if_neg hz] at h
          cases hcl : (creatorLoop w urls0).2 with
          | ok results =>
            rw [hcl] at h
            injection h with h1
            injection h1 with h1 h2
            exact Except.noConfusion h2
          | error e0 =>
            rw [hcl] at h
            injection h with h1
            injection h1 with h1 h2
            injection h2 with h2
            subst h2
            obtain ⟨hwi, k, hk, herr, hprev⟩ := creatorLoop_err w urls0
              (creatorLoop w urls0).1 e0 (by rw [← hcl])
            constructor
            · intro cr n ps hmem
              rw [← h1] at hmem
              rcases List.mem_cons.mp hmem with hm | hm
              · exact Event.noConfusion hm
              · exact hwi cr n ps hm
            · intro urls hne hu
              injection hu with hu
              injection hu with hu
              subst hu
              refine ⟨k, hk, herr, ?_⟩
              intro i hi
              obtain ⟨m, ev, hok, hmemw⟩ := hprev i hi
              exact ⟨m, ev, hok, by rw [← h1]; exact List.mem_cons_of_mem _ hmemw⟩

/-- C5 witness: a creator with no discoverable projects yields exactly the
"No public projects found" error with no events, and in the aborted
two-project run no index write occurs among the produced events. -/
theorem creator_fatal_cases_witness :
    scrape_creator wEmpty "bob" 1
      = some ([], .error "No public projects found for \x27bob\x27")
    ∧ (∀ cr n ps, Event.writeIndex cr n ps ∉ evtsBoom) :=
  ⟨(creator_fatal_cases wEmpty "bob" 1).1 rfl,
   ((creator_fatal_cases wBoom "alice" 3).2 evtsBoom "boom" rfl).1⟩

/-- C6: on every completed creator run the progress-callback invocations
are exactly the total-count marker (prefix "__total__" followed by the
number of discovered projects) followed by, per project in discovery order,
one completion message carrying the resolved title, or the slug when the
title is empty. -/
theorem creator_progress_protocol (w : World) (c : String) (fuel : Nat)
    (evts : List Event) (results : List Rec)
    (h : scrape_creator w c fuel = some (evts, .ok results)) :
    progressMsgs evts
      = ("__total__" ++ toString results.length)
        :: results.map (fun r => pyOr r.title r.slug) := by
  unfold scrape_creator at h
  cases hf : fetch_project_urls w fuel with
  | none =>
    rw [hf] at h
    exact Option.noConfusion h
  | some r =>
    rw [hf] at h
    cases r with
    | error e0 =>
      dsimp only at h
      injection h with h1
      injection h1 with h1 h2
      exact Except.noConfusion h2
    | ok urls0 =>
      dsimp only at h
      by_cases hz : urls0 = []
      · rw [if_pos hz] at h
        injection h with h1
        injection h1 with h1 h2
        exact Except.noConfusion h2
      · rw [if_neg hz] at h
        cases hcl : (creatorLoop w urls0).2 with
        | error e0 =>
          rw [hcl] at h
          injection h with h1
          injection h1 with h1 h2
          exact Except.noConfusion h2
        | ok results0 =>
          rw [hcl] at h
          injection h with h1
          injection h1 with h1 h2
          injection h2 with h2
          subst h2
          obtain ⟨hlen, _, hpm, _⟩ := creatorLoop_ok w urls0
            (creatorLoop w urls0).1 results0 (by rw [← hcl])
          rw [← h1]
          show ("__total__" ++ toString urls0.length)
              :: progressMsgs ((creatorLoop w urls0).1
                  ++ [Event.writeIndex c results0.length results0])
            = ("__total__" ++ toString results0.length)
              :: results0.map (fun r => pyOr r.title r.slug)
          rw [progressMsgs_append, hpm, hlen]
          simp [progressMsgs]

/-- C6 witness: the one-project world emits the total marker then the single
completion message. -/
theorem creator_progress_protocol_witness :
    progressMsgs evtsOk
      = ("__total__" ++ toString ([recU1] : List Rec).length)
        :: ([recU1] : List Rec).map (fun r => pyOr r.title r.slug) :=
  creator_progress_protocol wOk "alice" 3 evtsOk [recU1] rfl

/-- C9: every completed creator run produces exactly one index.json write,
as the final event after all projects, holding the creator name, a
project_count equal to the number of records, and the records themselves;
the records correspond index-by-index to the discovered URLs, so they are in
discovery order. -/
theorem creator_summary_spec (w : World) (c : String) (fuel : Nat)
    (evts : List Event) (results : List Rec)
    (h : scrape_creator w c fuel = some (evts, .ok results)) :
    ∃ inner urls,
      fetch_project_urls w fuel = some (.ok urls)
      ∧ evts = Event.progress ("__total__" ++ toString urls.length)
          :: inner ++ [Event.writeIndex c results.length results]
      ∧ (∀ e ∈ inner, ∀ cr n ps, e ≠ Event.writeIndex cr n ps)
      ∧ results.length = urls.length
      ∧ ∀ i, i < urls.length →
          ∃ ev, scrape_project w (urls.getD i "") = .ok (results.getD i defaultRec, ev) := by
  unfold scrape_creator at h
  cases hf : fetch_project_urls w fuel with
  | none =>
    rw [hf] at h
    exact Option.noConfusion h
  | some r =>
    rw [hf] at h
    cases r with
    | error e0 =>
      dsimp only at h
      injection h with h1
      injection h1 with h1 h2
      exact Except.noConfusion h2
    | ok urls0 =>
      dsimp only at h
      by_cases hz : urls0 = []
      · rw [if_pos hz] at h
        injection h with h1
        injection h1 with h1 h2
        exact Except.noConfusion h2
      · rw [if_neg hz] at h
        cases hcl : (creatorLoop w urls0).2 with
        | error e0 =>
          rw [hcl] at h
          injection h with h1
          injection h1 with h1 h2
          exact Except.noConfusion h2
        | ok results0 =>
          rw [hcl] at h
          injection h with h1
          injection h1 with h1 h2
          injection h2 with h2
          subst h2
          obtain ⟨hlen, hwi, _, hidx⟩ := creatorLoop_ok w urls0
            (creatorLoop w urls0).1 results0 (by rw [← hcl])
          refine ⟨(creatorLoop w urls0).1, urls0, rfl, ?_, ?_, hlen, hidx⟩
          · rw [← h1]
          · intro ev hmem cr n ps hev
            exact hwi cr n ps (hev ▸ hmem)

/-- C9 witness: the one-project run writes index.json once, last, with
project_count 1 and the single record. -/
theorem creator_summary_spec_witness :
    ∃ inner urls,
      fetch_project_urls wOk 3 = some (.ok urls)
      ∧ evtsOk = Event.progress ("__total__" ++ toString urls.length)
          :: inner ++ [Event.writeIndex "alice" ([recU1] : List Rec).length [recU1]]
      ∧ (∀ e ∈ inner, ∀ cr n ps, e ≠ Event.writeIndex cr n ps)
      ∧ ([recU1] : List Rec).length = urls.length
      ∧ ∀ i, i < urls.length →
          ∃ ev, scrape_project wOk (urls.getD i "")
            = .ok (([recU1] : List Rec).getD i defaultRec, ev) :=
  creator_summary_spec wOk "alice" 3 evtsOk [recU1] rfl

lemma isPrefixOf_self_append (l r : List Char) : l.isPrefixOf (l ++ r) = true := by
  induction l with
  | nil => simp
  | cons c t ih => simp [List.isPrefixOf, ih]

lemma replaceAllF_no_underscore : ∀ (fuel : Nat) (l : List Char), '_' ∉ l →
    replaceAllF totalMarker fuel l = l := by
  intro fuel
  induction fuel with
  | zero =>
    intro l _
    cases l <;> rfl
  | succ f ih =>
    intro l hl
    cases l with
    | nil => rfl
    | cons c rest =>
      have hc : ('_' == c) = false := by
        apply beq_eq_false_iff_ne.mpr
        intro h
        exact hl (h ▸ List.mem_cons_self '_' rest)
      have hpre : totalMarker.isPrefixOf (c :: rest) = false := by
        rw [show totalMarker = '_' :: "_total__".data from rfl]
        simp [List.isPrefixOf, hc]
      simp only [replaceAllF, hpre]
      simp only [Bool.false_eq_true, and_false, if_false]
      rw [ih rest (fun h => hl (List.mem_cons_of_mem c h))]

lemma replaceAll_marker (rest : List Char) (h : '_' ∉ rest) :
    replaceAll totalMarker (totalMarker ++ rest) = rest := by
  have hlen : (totalMarker ++ rest).length = ("_total__".data ++ rest : List Char).length + 1 := by
    rw [List.length_append, List.length_append,
      show totalMarker.length = 9 from rfl,
      show ("_total__".data : List Char).length = 8 from rfl]
    omega
  unfold replaceAll
  rw [hlen, show totalMarker ++ rest = '_' :: ("_total__".data ++ rest) from rfl]
  simp only [replaceAllF]
  rw [if_pos ⟨by simp [totalMarker],
    by rw [show ('_' : Char) :: ("_total__".data ++ rest) = totalMarker ++ rest from rfl]
       exact isPrefixOf_self_append totalMarker rest⟩]
  rw [show (('_' : Char) :: ("_total__".data ++ rest)).drop totalMarker.length = rest from rfl]
  exact replaceAllF_no_underscore _ rest h

/-- C10 counterexample: the total-marker branch does not in general set
total to the integer parsed after the prefix: on the message
"__total__1__total__2" there is no such integer (int would raise on
"1__total__2"), while the code, which removes every occurrence of the
marker, succeeds and stores 12. -/
theorem on_progress_total_refuted :
    ¬ (∀ (job : Job) (msg : String), totalMarker.isPrefixOf msg.data = true →
        ∃ n j, pyInt (msg.data.drop totalMarker.length) = .ok n
          ∧ on_progress job msg = .ok j ∧ j.total = n) := by
  intro h
  obtain ⟨n, j, hn, _, _⟩ := h job0 "__total__1__total__2" (by decide)
  rw [show pyInt (("__total__1__total__2" : String).data.drop totalMarker.length)
        = Except.error "invalid literal for int() with base 10" from rfl] at hn
  exact Except.noConfusion hn

/-- C10 amended: a message beginning with "__total__" is never appended to
progress and touches no job field other than total; when it succeeds, total
is int of the message with every marker occurrence removed, which equals the
integer after the prefix whenever the marker does not recur (in particular
for every well-formed total message); every other message is appended to
progress and nothing else changes; hence no entry of the progress list ever
starts with the marker. -/
theorem on_progress_routing (job : Job) (msg : String) :
    (totalMarker.isPrefixOf msg.data = true →
      (∀ j, on_progress job msg = .ok j →
        j.progress = job.progress ∧ j.status = job.status ∧ j.error = job.error
          ∧ j.zipPath = job.zipPath
          ∧ pyInt (replaceAll totalMarker msg.data) = .ok j.total)
      ∧ ∀ rest n, msg.data = totalMarker ++ rest → '_' ∉ rest →
          pyInt rest = .ok n → on_progress job msg = .ok { job with total := n })
    ∧ (totalMarker.isPrefixOf msg.data = false →
        on_progress job msg = .ok { job with progress := job.progress ++ [msg] })
    ∧ ((∀ m ∈ job.progress, totalMarker.isPrefixOf m.data = false) →
       ∀ j, on_progress job msg = .ok j →
         ∀ m ∈ j.progress, totalMarker.isPrefixOf m.data = false) := by
  refine ⟨fun hp => ⟨?_, ?_⟩, ?_, ?_⟩
  · intro j hj
    unfold on_progress at hj
    rw [hp] at hj
    simp only [if_pos rfl] at hj
    cases hpy : pyInt (replaceAll totalMarker msg.data) with
    | ok n =>
      rw [hpy] at hj
      injection hj with hj
      subst hj
      exact ⟨rfl, rfl, rfl, rfl, rfl⟩
    | error e =>
      rw [hpy] at hj
      exact Except.noConfusion hj
  · intro rest n hmsg hrest hpy
    unfold on_progress
    have hp2 : totalMarker.isPrefixOf msg.data = true := by
      rw [hmsg]
      exact isPrefixOf_self_append totalMarker rest
    rw [hp2]
    simp only [if_pos rfl]
    rw [hmsg, replaceAll_marker rest hrest, hpy]
    rfl
  · intro hp
    unfold on_progress
    rw [hp]
    rfl
  · intro hinv j hj m hm
    unfold on_progress at hj
    by_cases hp : totalMarker.isPrefixOf msg.data = true
    · rw [hp] at hj
      simp only [if_pos rfl] at hj
      cases hpy : pyInt (replaceAll totalMarker msg.data) with
      | ok n =>
        rw [hpy] at hj
        injection hj with hj
        subst hj
        exact hinv m hm
      | error e =>
        rw [hpy] at hj
        exact Except.noConfusion hj
    · have hp2 : totalMarker.isPrefixOf msg.data = false :=
        Bool.eq_false_iff.mpr hp
      rw [hp2] at hj
      simp only [Bool.false_eq_true, if_false] at hj
      injection hj with hj
      subst hj
      dsimp only at hm
      rcases List.mem_append.mp hm with hm | hm
      · exact hinv m hm
      · rw [List.mem_singleton.mp hm]
        exact hp2

/-- C10 witness: a well-formed total marker sets total to the following
integer without touching progress, and a plain message is appended. -/
theorem on_progress_routing_witness :
    on_progress job0 "__total__3" = .ok { job0 with total := 3 }
    ∧ on_progress job0 "Done" = .ok { job0 with progress := job0.progress ++ ["Done"] } :=
  ⟨((on_progress_routing job0 "__total__3").1 (by decide)).2 ['3'] 3 (by decide)
      (by decide) rfl,
   (on_progress_routing job0 "Done").2.1 (by decide)⟩

end Itch
